import Mathlib

/-!
# Verification of the ratarmount archive/source resolution engine

Shallow embedding of `src/core/ratarmountcore/factory.py`: the URL dispatch
(`tryOpenURL`), the backend registry and extension matching
(`_BACKENDS`, `matchesExtension`), and the ordered backend trial loop of
`openMountSource`.

External collaborators (the individual archive libraries, the fsspec
filesystems, `checkForSplitFile` from `compressions.py`) are modelled as
abstract parameters of an environment record: the code under verification is
the resolution logic itself, which treats them as black boxes.
-/

namespace Ratarmount

/-! ## Python string primitives used by factory.py -/

/-- Python `str.lower()` restricted to ASCII-style per-character lowering, as used by
`matchesExtension` on file names and extension hints. -/
def pyLower (s : String) : String := ⟨s.data.map Char.toLower⟩

/-- Python `str.endswith(suffix)`. -/
def pyEndsWith (s suf : String) : Bool := List.isSuffixOf suf.data s.data

/-- Python `str.rstrip('/')`: remove all trailing slashes. -/
def pyRstripSlash (s : String) : String := ⟨(s.data.reverse.dropWhile (· == '/')).reverse⟩

/-- Python `str.startswith('/')` - only the first character matters. -/
def headIsSlash (s : String) : Bool := s.data.head? == some '/'

/-- Whether the last character is a slash (used to state the dropbox
trailing-slash property). -/
def lastIsSlash (s : String) : Bool := s.data.getLast? == some '/'

/-- Python `os.path.basename`: the part after the last '/'. -/
def pyBasename (s : String) : String := ⟨(s.data.reverse.takeWhile (· ≠ '/')).reverse⟩

/-- Python `s.rsplit('.', maxsplit=1)[0]`: everything before the last dot, or `s`
itself when there is no dot. -/
def pyStripLastExt (s : String) : String :=
  let r := s.data.reverse.dropWhile (· ≠ '.')
  if r = [] then s else ⟨r.reverse.dropLast⟩

/-- Does the character list start with the given segment? -/
def startsWithSeg : List Char → List Char → Bool
  | [], _ => true
  | _ :: _, [] => false
  | a :: as, b :: bs => a == b && startsWithSeg as bs

/-- Split a character list at the first occurrence of `sep`
(Python `s.split(sep, maxsplit=1)` yielding two pieces), `none` when `sep`
does not occur. -/
def splitOnce (sep : List Char) : List Char → Option (List Char × List Char)
  | [] => none
  | c :: cs =>
    if startsWithSeg sep (c :: cs) then some ([], (c :: cs).drop sep.length)
    else
      match splitOnce sep cs with
      | none => none
      | some (a, b) => some (c :: a, b)

/-- The `"://"` separator of URL schemes. -/
def schemeSep : List Char := [':', '/', '/']

/-- Python `'://' in s` (the substring test used at the top of `openMountSource`). -/
def containsScheme (s : String) : Bool := (splitOnce schemeSep s.data).isSome

/-- Python `url.split('://', 1)` when the separator occurs, as strings. -/
def splitScheme (url : String) : Option (String × String) :=
  match splitOnce schemeSep url.data with
  | none => none
  | some (a, b) => some (⟨a⟩, ⟨b⟩)

/-! ## The options dictionary (`**options`) -/

/-- Values stored in the keyword-options dictionary. -/
inductive OptValue where
  | vstr (s : String)
  | vlist (l : List String)
  | vint (n : Int)
deriving DecidableEq, Repr

/-- The `**options` dictionary, modelled as an association list with unique
keys maintained by `setOpt`. -/
abbrev Options := List (String × OptValue)

/-- Python `options.get(k)` and `k in options`. -/
def getOpt (o : Options) (k : String) : Option OptValue :=
  match o.find? (fun kv => kv.1 == k) with
  | some kv => some kv.2
  | none => none

/-- Python `options[k] = v` (replace in place, or append a fresh key). -/
def setOpt (o : Options) (k : String) (v : OptValue) : Options :=
  if (o.find? (fun kv => kv.1 == k)).isSome then
    o.map (fun kv => if kv.1 == k then (k, v) else kv)
  else o ++ [(k, v)]

/-- Python `del options[k]` on a copy of the dictionary. -/
def delOpt (o : Options) (k : String) : Options := o.filter (fun kv => kv.1 != k)

/-- Python truthiness of an optional dictionary entry. -/
def optTruthy : Option OptValue → Bool
  | none => false
  | some (.vstr s) => s ≠ ""
  | some (.vlist l) => l ≠ []
  | some (.vint n) => n ≠ 0

/-- Python `options.get("prioritizedBackends", [])`. -/
def getPrioritized (o : Options) : List String :=
  match getOpt o "prioritizedBackends" with
  | some (.vlist l) => l
  | _ => []

/-! ## Sources, probes, backends -/

/-- The observable state of an open byte-stream handed to probes: its read
position, whether it has a `seek` attribute, and whether calling `seek(0)` on
it raises. -/
structure StreamSt where
  pos : Nat
  seekable : Bool
  seekRaises : Bool
deriving DecidableEq, Repr

/-- The argument `fileOrPath : Union[str, IO[bytes]]`. -/
inductive FSource where
  | str (s : String)
  | stream (st : StreamSt)
deriving DecidableEq, Repr

/-- Python `isinstance(fileOrPath, str)`. -/
def isStr : FSource → Prop
  | .str _ => True
  | .stream _ => False

instance : DecidablePred isStr := fun s => by
  cases s <;> simp [isStr] <;> infer_instance

/-- Python `str(fileOrPath)` as used in the unrecognized-format message. -/
def describeSource : FSource → String
  | .str s => s
  | .stream _ => "<stream>"

/-- Result of one backend probe: a mount source (abstract handle), `None`, or
a raised exception. -/
inductive ProbeRes where
  | found (h : Nat)
  | declined
  | raised
deriving DecidableEq, Repr

/-- One entry of the `_BACKENDS` table: the probe behaviour on a path, the
probe behaviour on a stream (result plus the stream position it leaves
behind), and the declared extension hints. The probe bodies live in external
archive libraries and are therefore abstract parameters. -/
structure Backend where
  probePath : Options → String → ProbeRes
  probeStream : Options → Nat → ProbeRes × Nat
  extensions : List String

/-- The function `matchesExtension` (factory.py line 201): case-insensitive exact suffix
match of `'.' + extension` against the file name. -/
def matchesExtension (fileName : String) (extensions : List String) : Bool :=
  extensions.any (fun ext => pyEndsWith (pyLower fileName) ("." ++ pyLower ext))

/-- A mount source produced by resolution. -/
inductive MSrc where
  | probed (h : Nat)
  | folder (p : String)
  | singleFile (name : String)
  | urlMount (h : Nat)
deriving DecidableEq, Repr

/-- The errors raised by the resolution engine. -/
inductive Err where
  | notFound (p : String)
  | unrecognizedFormat (s : String)
  | urlError (msg : String)
deriving DecidableEq, Repr

/-- Result of `openMountSource`: a mount source or a raised error. -/
inductive Outcome where
  | mounted (m : MSrc)
  | failed (e : Err)
deriving DecidableEq, Repr

/-- A record of one invocation of a backend probe: which backend, with which
options, at which stream position (`none` for path sources), and with which
result. -/
structure ProbeCall where
  name : String
  opts : Options
  pos : Option Nat
  result : ProbeRes
deriving DecidableEq, Repr

/-- What `tryOpenURL` resolved a URL to, as observed by `openMountSource`:
a mount source, an open stream, a plain path, or a raised error. -/
inductive URLResolved where
  | mount (h : Nat)
  | stream (st : StreamSt)
  | pathStr (p : String)
  | raisesErr (e : Err)

/-- The environment of `openMountSource`: the registered backend table (in
registration order), the tar compression sub-variant module names, and the
external collaborators (filesystem predicates, `checkForSplitFile`, and the
URL resolution result). -/
structure Env where
  backends : List (String × Backend)
  tarCompressionBackends : List String
  pathExists : String → Bool
  isDir : String → Bool
  realpath : String → String
  splitFile : String → Option (List String)
  resolveURL : String → URLResolved

/-- Normalization of a tar compression sub-variant name to `"tarfile"`
(factory.py lines 443-444). -/
def normalizeBackendName (tarComp : List String) (n : String) : String :=
  if n ∈ tarComp then "tarfile" else n

/-- The `_BACKENDS[name]` lookup. -/
def knownBackend (env : Env) (name : String) : Option Backend :=
  match env.backends.find? (fun b => b.1 == name) with
  | some b => some b.2
  | none => none

/-- Whether `name in _BACKENDS`. -/
def isKnown (env : Env) (name : String) : Bool := (knownBackend env name).isSome

/-- Outcome of the trial loop proper: a backend succeeded, or the candidate
list was exhausted (carrying the final state of the source). -/
inductive TrialRes where
  | opened (h : Nat)
  | exhausted (src : FSource)
deriving DecidableEq, Repr

/-- One probe attempt of the trial loop body (factory.py lines 453-475):
run the backend's probe on the current source and compute the state the
source is left in for the next candidate. On a path source nothing changes
(a `str` has no `seek` attribute). On a stream source the probe leaves the
position it reached, except that a raised probe exception triggers
`fileOrPath.seek(0)` - and only a raised exception does; a `None` result
does not. A failing `seek(0)` is itself caught, leaving the reached
position. Returns the probe result, the source state for the next
candidate, and the position the probe observed. -/
def probeStep (opts : Options) (b : Backend) : FSource → ProbeRes × FSource × Option Nat
  | .str p => (b.probePath opts p, .str p, none)
  | .stream st =>
    match b.probeStream opts st.pos with
    | (.found h, pos2) => (.found h, .stream ⟨pos2, st.seekable, st.seekRaises⟩, some st.pos)
    | (.declined, pos2) => (.declined, .stream ⟨pos2, st.seekable, st.seekRaises⟩, some st.pos)
    | (.raised, pos2) =>
      (.raised,
       .stream ⟨if st.seekable && !st.seekRaises then 0 else pos2, st.seekable, st.seekRaises⟩,
       some st.pos)

/-- The backend trial loop of `openMountSource` (factory.py lines 442-475):
iterate over candidate names, normalize tar compression sub-variants, skip
names already tried, skip unknown names, probe known backends, and return on
the first truthy result. Returns the loop outcome together with the trace of
probe invocations. -/
def runTrials (env : Env) (opts : Options) :
    List String → List String → FSource → TrialRes × List ProbeCall
  | [], _, src => (.exhausted src, [])
  | n0 :: rest, tried, src =>
    let name := normalizeBackendName env.tarCompressionBackends n0
    if name ∈ tried then runTrials env opts rest tried src
    else
      match knownBackend env name with
      | none => runTrials env opts rest (name :: tried) src
      | some b =>
        match probeStep opts b src with
        | (.found h, _, obs) => (.opened h, [⟨name, opts, obs, .found h⟩])
        | (.declined, src', obs) =>
          let r := runTrials env opts rest (name :: tried) src'
          (r.1, ⟨name, opts, obs, .declined⟩ :: r.2)
        | (.raised, src', obs) =>
          let r := runTrials env opts rest (name :: tried) src'
          (r.1, ⟨name, opts, obs, .raised⟩ :: r.2)

/-- The trial loop plus the split-join fallback and the unrecognized-format
error (factory.py lines 438-480). `joined` is `joinedFileName`; `auto` is
`autoPrioritizedBackends`. -/
def runLoop (env : Env) (opts : Options) (auto : List String) (joined : String)
    (src : FSource) : Outcome × List ProbeCall :=
  let names := getPrioritized opts ++ auto ++ env.backends.map (·.1)
  let r := runTrials env opts names [] src
  match r.1 with
  | .opened h => (.mounted (.probed h), r.2)
  | .exhausted src' =>
    if joined ≠ "" ∧ ¬ isStr src' then
      (.mounted (.singleFile joined), r.2)
    else (.failed (.unrecognizedFormat (describeSource src')), r.2)

/-- The list `autoPrioritizedBackends` (factory.py lines 434-436): the ids of the
registered backends whose extension hints match the file name, in
registration order. -/
def autoPrioritizedFor (env : Env) (fileName : String) : List String :=
  (env.backends.filter (fun b => matchesExtension fileName b.2.extensions)).map (·.1)

/-- The body of `openMountSource` after URL resolution (factory.py lines 413-480):
existence and directory checks, split-file detection and join, extension
prioritization, then the trial loop. -/
def openAfterURL (env : Env) (src0 : FSource) (opts0 : Options) :
    Outcome × List ProbeCall :=
  match src0 with
  | .str p =>
    if ¬ env.pathExists p then (.failed (.notFound p), [])
    else if env.isDir p then
      (.mounted (.folder (if p = "." then "." else env.realpath p)), [])
    else
      match env.splitFile p with
      | some filesToJoin =>
        let first := filesToJoin.headD ""
        let joinedFileName := pyStripLastExt (pyBasename first)
        let opts :=
          if optTruthy (getOpt opts0 "indexFilePath") then opts0
          else setOpt opts0 "indexFilePath" (.vstr (first ++ ".index.sqlite"))
        runLoop env opts [] joinedFileName (.stream ⟨0, true, false⟩)
      | none => runLoop env opts0 (autoPrioritizedFor env p) "" (.str p)
  | .stream st => runLoop env opts0 [] "" (.stream st)

/-- The function `openMountSource` (factory.py lines 396-480): URL handling (including the
`tarFileName` injection for URLs that resolve to streams) followed by
`openAfterURL`. -/
def openMountSource (env : Env) (fileOrPath : FSource) (options : Options) :
    Outcome × List ProbeCall :=
  match fileOrPath with
  | .str s =>
    if containsScheme s then
      match env.resolveURL s with
      | .raisesErr e => (.failed e, [])
      | .mount h => (.mounted (.urlMount h), [])
      | .pathStr p => openAfterURL env (.str p) options
      | .stream st =>
        let opts :=
          if (getOpt options "tarFileName").isSome then options
          else setOpt options "tarFileName" (.vstr s)
        openAfterURL env (.stream st) opts
    else openAfterURL env (.str s) options
  | .stream st => openAfterURL env (.stream st) options

/-- The call `_openTarMountSource` makes to `SQLiteIndexedTar`
(factory.py lines 92-99): either on a path with some options dictionary, or
on a file object. -/
inductive TarInvocation where
  | onPath (p : String) (opts : Options)
  | onFileObject (opts : Options)
deriving DecidableEq, Repr

/-- The function `_openTarMountSource` (factory.py lines 92-99): on a path with
`'tarFileName'` present, delete the key from a copied dictionary before
delegating to `SQLiteIndexedTar`; the delegation itself is external and is
represented by the invocation record. -/
def openTarMountSource : FSource → Options → TarInvocation
  | .str p, opts =>
    if (getOpt opts "tarFileName").isSome then .onPath p (delOpt opts "tarFileName")
    else .onPath p opts
  | .stream _, opts => .onFileObject opts

/-- The dropbox path normalization (factory.py lines 344-351): force a
leading slash onto a non-empty path, then strip all trailing slashes. -/
def dropboxNormalize (path : String) : String :=
  let p := if path.data ≠ [] && !headIsSlash path then "/" ++ path else path
  pyRstripSlash p

/-- Python `os.environ.get('DROPBOX_TOKEN', None)` truthiness. -/
def tokenTruthy : Option String → Bool
  | none => false
  | some t => t ≠ ""

/-! ## tryOpenURL: URL scheme dispatch (factory.py lines 264-354) -/

/-- The availability of the optional transport collaborators and the ambient
process environment, as seen by `tryOpenURL`. -/
structure URLEnv where
  sshAvailable : Bool
  sshProtocols : List String
  fsspecAvailable : Bool
  pythonBelow39 : Bool
  webdavAvailable : Bool
  dropboxAvailable : Bool
  dropboxToken : Option String

/-- The dispatch decision of `tryOpenURL`: which adapter is invoked with
which arguments, or which error is raised. The adapters themselves are
external collaborators; a constructor records the hand-off. -/
inductive URLDecision where
  | noScheme
  | localPath (p : String)
  | gitAdapter (url : String)
  | sshAdapter (url : String)
  | fsspecMissing
  | ftpLegacy (url : String)
  | webdavMissingPkg
  | webdavFS (rest : String)
  | dropboxMissingPkg
  | dropboxTokenMissing
  | dropboxFS (path : String)
  | genericFS (url : String)
deriving DecidableEq, Repr

/-- The function `tryOpenURL` (factory.py lines 264-354), up to the hand-off to the chosen
transport adapter. The chain of checks mirrors the source: scheme presence,
`file`, `git`, the secure-shell protocols, fsspec availability, the legacy
ftp special case, `webdav`, `dropbox` (package presence, token presence,
path normalization), and the generic fsspec fallback. -/
def tryOpenURL (env : URLEnv) (url : String) : URLDecision :=
  match splitScheme url with
  | none => .noScheme
  | some (protocol, remainder) =>
    if protocol = "" then .noScheme
    else if protocol = "file" then .localPath remainder
    else if protocol = "git" then .gitAdapter url
    else if env.sshAvailable && protocol ∈ env.sshProtocols then .sshAdapter url
    else if !env.fsspecAvailable then .fsspecMissing
    else if protocol = "ftp" && env.pythonBelow39 then .ftpLegacy url
    else if protocol = "webdav" then
      if !env.webdavAvailable then .webdavMissingPkg else .webdavFS remainder
    else if protocol = "dropbox" then
      if !env.dropboxAvailable then .dropboxMissingPkg
      else if !tokenTruthy env.dropboxToken then .dropboxTokenMissing
      else .dropboxFS (dropboxNormalize remainder)
    else .genericFS url


/-! ## A staged view of the trial loop

The loop of `runTrials` interleaves three concerns: name normalization,
deduplication via the `triedBackends` set, and actual probing. For the proofs
we stage it: first compute the deduplicated plan of known backend names, then
run the probes over that plan. `runTrials_eq_runProbes` proves the staging
faithful. -/

/-- Deduplication keeping the first occurrence, relative to an initial set of
already-seen names (the `triedBackends` set). -/
def dedupFirstAux (seen : List String) : List String → List String
  | [] => []
  | a :: l => if a ∈ seen then dedupFirstAux seen l else a :: dedupFirstAux (a :: seen) l

/-- The sequence of known backend names the loop will actually probe, given
the initial tried set and the raw candidate names. -/
def plannedNames (env : Env) (tried names : List String) : List String :=
  (dedupFirstAux tried (names.map (normalizeBackendName env.tarCompressionBackends))).filter
    (isKnown env)

/-- The probing stage of the trial loop, over an already-deduplicated plan. -/
def runProbes (env : Env) (opts : Options) :
    List String → FSource → TrialRes × List ProbeCall
  | [], src => (.exhausted src, [])
  | name :: rest, src =>
    match knownBackend env name with
    | none => runProbes env opts rest src
    | some b =>
      match probeStep opts b src with
      | (.found h, _, obs) => (.opened h, [⟨name, opts, obs, .found h⟩])
      | (.declined, src', obs) =>
        let r := runProbes env opts rest src'
        (r.1, ⟨name, opts, obs, .declined⟩ :: r.2)
      | (.raised, src', obs) =>
        let r := runProbes env opts rest src'
        (r.1, ⟨name, opts, obs, .raised⟩ :: r.2)

/-- Whether a probe result is a truthy mount source. -/
def isFound : ProbeRes → Bool
  | .found _ => true
  | _ => false

/-- The ordered candidate list as the specification postulates it: the
caller's explicit priority list, then the extension-matched backend ids,
then all registered ids in registration order, each normalized to its owning
structural backend id, deduplicated keeping the first occurrence. -/
def candidateNames (env : Env) (opts : Options) (fileName : String) : List String :=
  dedupFirstAux []
    ((getPrioritized opts ++ autoPrioritizedFor env fileName ++ env.backends.map (·.1)).map
      (normalizeBackendName env.tarCompressionBackends))

/-- Outcomes produced by exhausting the candidate list: the split-join
fallback or the unrecognized-format error. -/
def isExhaustionOutcome : Outcome → Bool
  | .mounted (.singleFile _) => true
  | .failed (.unrecognizedFormat _) => true
  | _ => false

/-! ## Concrete instances used to exercise the theorems -/

/-- A backend whose probe always declines, leaving the stream position
unchanged. -/
def bStay : Backend := ⟨fun _ _ => .declined, fun _ pos => (.declined, pos), ["tar"]⟩

/-- A backend whose probe declines after reading 7 bytes of the stream. -/
def bRead7 : Backend := ⟨fun _ _ => .declined, fun _ pos => (.declined, pos + 7), ["zip"]⟩

/-- A backend whose probe raises after reading 5 bytes of the stream. -/
def bRaise5 : Backend := ⟨fun _ _ => .raised, fun _ pos => (.raised, pos + 5), ["rar"]⟩

/-- A backend whose probe succeeds. -/
def bOpen : Backend := ⟨fun _ _ => .found 42, fun _ pos => (.found 42, pos), ["7z"]⟩

/-- A small two-backend environment over a plain local file. -/
def envA : Env where
  backends := [("tarfile", bStay), ("zipfile", bRead7)]
  tarCompressionBackends := ["gzip", "bz2"]
  pathExists := fun p => p == "/a/x.tar"
  isDir := fun _ => false
  realpath := fun p => p
  splitFile := fun _ => none
  resolveURL := fun _ => .raisesErr (.urlError "offline")

/-- An environment whose first backend reads the stream and declines and
whose second backend declines in place. -/
def envB : Env where
  backends := [("rarfile", bRead7), ("tarfile", bStay)]
  tarCompressionBackends := []
  pathExists := fun _ => false
  isDir := fun _ => false
  realpath := fun p => p
  splitFile := fun _ => none
  resolveURL := fun _ => .raisesErr (.urlError "offline")

/-- An environment whose first backend raises mid-read and whose second
backend declines in place. -/
def envC : Env where
  backends := [("rarfile", bRaise5), ("tarfile", bStay)]
  tarCompressionBackends := []
  pathExists := fun _ => false
  isDir := fun _ => false
  realpath := fun p => p
  splitFile := fun _ => none
  resolveURL := fun _ => .raisesErr (.urlError "offline")

/-- An environment that recognizes a directory and a split two-shard file. -/
def envS : Env where
  backends := [("tarfile", bStay)]
  tarCompressionBackends := []
  pathExists := fun p => p == "/d/arch.tar.001" || p == "/dir"
  isDir := fun p => p == "/dir"
  realpath := fun p => p
  splitFile := fun p =>
    if p == "/d/arch.tar.001" then some ["/d/arch.tar.001", "/d/arch.tar.002"] else none
  resolveURL := fun _ => .raisesErr (.urlError "offline")

/-- An environment whose URL resolver yields an open seekable stream. -/
def envU : Env where
  backends := [("tarfile", bStay)]
  tarCompressionBackends := []
  pathExists := fun _ => false
  isDir := fun _ => false
  realpath := fun p => p
  splitFile := fun _ => none
  resolveURL := fun _ => .stream ⟨0, true, false⟩

/-- A transport environment with every optional integration available and a
dropbox token set. -/
def urlEnvFull : URLEnv where
  sshAvailable := true
  sshProtocols := ["ssh", "sftp", "scp"]
  fsspecAvailable := true
  pythonBelow39 := false
  webdavAvailable := true
  dropboxAvailable := true
  dropboxToken := some "token123"

/-- The transport environment without a dropbox token. -/
def urlEnvNoToken : URLEnv where
  sshAvailable := true
  sshProtocols := ["ssh", "sftp", "scp"]
  fsspecAvailable := true
  pythonBelow39 := false
  webdavAvailable := true
  dropboxAvailable := true
  dropboxToken := none

theorem runTrials_eq_runProbes (env : Env) (opts : Options) :
    ∀ (names tried : List String) (src : FSource),
      runTrials env opts names tried src =
        runProbes env opts (plannedNames env tried names) src := by
  intro names
  induction names with
  | nil => intro tried src; simp [runTrials, plannedNames, dedupFirstAux, runProbes]
  | cons n0 rest ih =>
    intro tried src
    simp only [runTrials, plannedNames, List.map_cons, dedupFirstAux]
    by_cases hmem : normalizeBackendName env.tarCompressionBackends n0 ∈ tried
    · simp only [hmem, if_true]
      exact ih tried src
    · simp only [hmem, if_false, List.filter_cons]
      cases hk : knownBackend env (normalizeBackendName env.tarCompressionBackends n0) with
      | none =>
        have hkn : isKnown env (normalizeBackendName env.tarCompressionBackends n0) = false := by
          simp [isKnown, hk]
        simp only [hkn, Bool.false_eq_true, if_false]
        exact ih _ src
      | some b =>
        have hkn : isKnown env (normalizeBackendName env.tarCompressionBackends n0) = true := by
          simp [isKnown, hk]
        simp only [hkn, if_true, runProbes, hk]
        rcases hps : probeStep opts b src with ⟨r, src', obs⟩
        cases r with
        | found h => rfl
        | declined => simp only [ih, plannedNames]
        | raised => simp only [ih, plannedNames]

theorem dedupFirstAux_not_seen :
    ∀ (l seen : List String) (a : String), a ∈ dedupFirstAux seen l → a ∉ seen := by
  intro l
  induction l with
  | nil => intro seen a h; simp [dedupFirstAux] at h
  | cons b l ih =>
    intro seen a h
    by_cases hb : b ∈ seen
    · simp only [dedupFirstAux, hb, if_true] at h
      exact ih seen a h
    · simp only [dedupFirstAux, hb, if_false, List.mem_cons] at h
      rcases h with rfl | h
      · exact hb
      · intro hs
        exact ih (b :: seen) a h (List.mem_cons_of_mem _ hs)

theorem dedupFirstAux_nodup : ∀ (l seen : List String), (dedupFirstAux seen l).Nodup := by
  intro l
  induction l with
  | nil => intro seen; simp [dedupFirstAux]
  | cons b l ih =>
    intro seen
    by_cases hb : b ∈ seen
    · simp only [dedupFirstAux, hb, if_true]; exact ih seen
    · simp only [dedupFirstAux, hb, if_false, List.nodup_cons]
      refine ⟨fun hmem => ?_, ih (b :: seen)⟩
      exact dedupFirstAux_not_seen l (b :: seen) b hmem (List.mem_cons_self b seen)

theorem probeStep_str (opts : Options) (b : Backend) (p : String) :
    probeStep opts b (.str p) = (b.probePath opts p, .str p, none) := by
  cases h : b.probePath opts p <;> simp [probeStep, h]

theorem probeStep_stream_spec (opts : Options) (b : Backend) (st : StreamSt) :
    (probeStep opts b (.stream st)).2.2 = some st.pos ∧
    ∃ pos', (probeStep opts b (.stream st)).2.1 = .stream ⟨pos', st.seekable, st.seekRaises⟩ ∧
      ((probeStep opts b (.stream st)).1 = .raised → st.seekable = true →
        st.seekRaises = false → pos' = 0) := by
  rcases h : b.probeStream opts st.pos with ⟨r, pos2⟩
  cases r with
  | found h' => exact ⟨by simp [probeStep, h], pos2, by simp [probeStep, h], by simp [probeStep, h]⟩
  | declined => exact ⟨by simp [probeStep, h], pos2, by simp [probeStep, h], by simp [probeStep, h]⟩
  | raised =>
    refine ⟨by simp [probeStep, h], if st.seekable && !st.seekRaises then 0 else pos2,
      by simp [probeStep, h], ?_⟩
    intro _ hs hr
    simp [hs, hr]

theorem runProbes_opts (env : Env) (opts : Options) :
    ∀ (names : List String) (src : FSource) (c : ProbeCall),
      c ∈ (runProbes env opts names src).2 → c.opts = opts := by
  intro names
  induction names with
  | nil => intro src c h; simp [runProbes] at h
  | cons name rest ih =>
    intro src c h
    simp only [runProbes] at h
    cases hk : knownBackend env name with
    | none =>
      simp only [hk] at h
      exact ih src c h
    | some b =>
      rcases hps : probeStep opts b src with ⟨r, src', obs⟩
      simp only [hk, hps] at h
      cases r with
      | found h' => simp at h; subst h; rfl
      | declined =>
        simp only [List.mem_cons] at h
        rcases h with rfl | h
        · rfl
        · exact ih src' c h
      | raised =>
        simp only [List.mem_cons] at h
        rcases h with rfl | h
        · rfl
        · exact ih src' c h

theorem runProbes_trace_take (env : Env) (opts : Options) :
    ∀ (names : List String) (src : FSource),
      (runProbes env opts names src).2.map ProbeCall.name =
        (names.filter (isKnown env)).take (runProbes env opts names src).2.length := by
  intro names
  induction names with
  | nil => intro src; simp [runProbes]
  | cons name rest ih =>
    intro src
    simp only [runProbes, List.filter_cons]
    cases hk : knownBackend env name with
    | none =>
      have hkn : isKnown env name = false := by simp [isKnown, hk]
      simp only [hkn, Bool.false_eq_true, if_false]
      exact ih src
    | some b =>
      have hkn : isKnown env name = true := by simp [isKnown, hk]
      simp only [hkn, if_true]
      rcases hps : probeStep opts b src with ⟨r, src', obs⟩
      cases r with
      | found h' => simp
      | declined => simpa using ih src'
      | raised => simpa using ih src'

theorem runProbes_exhausted_trace (env : Env) (opts : Options) :
    ∀ (names : List String) (src : FSource) (s' : FSource),
      (runProbes env opts names src).1 = .exhausted s' →
      (runProbes env opts names src).2.map ProbeCall.name = names.filter (isKnown env) := by
  intro names
  induction names with
  | nil => intro src s' _; simp [runProbes]
  | cons name rest ih =>
    intro src s' hres
    simp only [runProbes, List.filter_cons] at hres ⊢
    cases hk : knownBackend env name with
    | none =>
      have hkn : isKnown env name = false := by simp [isKnown, hk]
      simp only [hk] at hres
      simp only [hk, hkn, Bool.false_eq_true, if_false]
      exact ih src s' hres
    | some b =>
      have hkn : isKnown env name = true := by simp [isKnown, hk]
      rcases hps : probeStep opts b src with ⟨r, src', obs⟩
      simp only [hk, hps] at hres
      simp only [hk, hps, hkn, if_true]
      cases r with
      | found h' => simp at hres
      | declined => simpa using ih src' s' hres
      | raised => simpa using ih src' s' hres

theorem runProbes_exhausted_iff (env : Env) (opts : Options) :
    ∀ (names : List String) (src : FSource),
      (∃ s', (runProbes env opts names src).1 = .exhausted s') ↔
        ∀ c ∈ (runProbes env opts names src).2, ∀ h, c.result ≠ .found h := by
  intro names
  induction names with
  | nil => intro src; simp [runProbes]
  | cons name rest ih =>
    intro src
    simp only [runProbes]
    cases hk : knownBackend env name with
    | none => simp only [hk]; exact ih src
    | some b =>
      rcases hps : probeStep opts b src with ⟨r, src', obs⟩
      simp only [hk, hps]
      cases r with
      | found h' =>
        simp only [List.mem_singleton]
        constructor
        · rintro ⟨s', hs'⟩; cases hs'
        · intro hall
          exact absurd rfl (hall ⟨name, opts, obs, .found h'⟩ rfl h')
      | declined =>
        simp only [List.mem_cons]
        constructor
        · rintro ⟨s', hs'⟩ c hc h
          rcases hc with rfl | hc
          · simp
          · exact (ih src').1 ⟨s', hs'⟩ c hc h
        · intro hall
          exact (ih src').2 (fun c hc h => hall c (Or.inr hc) h)
      | raised =>
        simp only [List.mem_cons]
        constructor
        · rintro ⟨s', hs'⟩ c hc h
          rcases hc with rfl | hc
          · simp
          · exact (ih src').1 ⟨s', hs'⟩ c hc h
        · intro hall
          exact (ih src').2 (fun c hc h => hall c (Or.inr hc) h)

theorem runProbes_str_src (env : Env) (opts : Options) :
    ∀ (names : List String) (p : String),
      (∃ h, (runProbes env opts names (.str p)).1 = .opened h) ∨
      (runProbes env opts names (.str p)).1 = .exhausted (.str p) := by
  intro names
  induction names with
  | nil => intro p; right; simp [runProbes]
  | cons name rest ih =>
    intro p
    simp only [runProbes]
    cases hk : knownBackend env name with
    | none => simpa only [hk] using ih p
    | some b =>
      simp only [hk, probeStep_str]
      cases hpp : b.probePath opts p with
      | found h' => left; exact ⟨h', rfl⟩
      | declined => simpa using ih p
      | raised => simpa using ih p

theorem runProbes_stream_src (env : Env) (opts : Options) :
    ∀ (names : List String) (st : StreamSt),
      (∃ h, (runProbes env opts names (.stream st)).1 = .opened h) ∨
      (∃ pos', (runProbes env opts names (.stream st)).1 =
        .exhausted (.stream ⟨pos', st.seekable, st.seekRaises⟩)) := by
  intro names
  induction names with
  | nil => intro st; right; exact ⟨st.pos, by simp [runProbes]⟩
  | cons name rest ih =>
    intro st
    simp only [runProbes]
    cases hk : knownBackend env name with
    | none => simpa only [hk] using ih st
    | some b =>
      rcases hps : probeStep opts b (.stream st) with ⟨r, src', obs⟩
      obtain ⟨-, pos', hsrc', -⟩ := probeStep_stream_spec opts b st
      rw [hps] at hsrc'
      simp only at hsrc'
      subst hsrc'
      simp only [hk, hps]
      cases r with
      | found h' => left; exact ⟨h', rfl⟩
      | declined => simpa using ih ⟨pos', st.seekable, st.seekRaises⟩
      | raised => simpa using ih ⟨pos', st.seekable, st.seekRaises⟩

theorem runProbes_head_pos (env : Env) (opts : Options) :
    ∀ (names : List String) (st : StreamSt) (c : ProbeCall),
      (runProbes env opts names (.stream st)).2.head? = some c → c.pos = some st.pos := by
  intro names
  induction names with
  | nil => intro st c h; simp [runProbes] at h
  | cons name rest ih =>
    intro st c h
    simp only [runProbes] at h
    cases hk : knownBackend env name with
    | none =>
      simp only [hk] at h
      exact ih st c h
    | some b =>
      rcases hps : probeStep opts b (.stream st) with ⟨r, src', obs⟩
      obtain ⟨hobs, -, -, -⟩ := probeStep_stream_spec opts b st
      rw [hps] at hobs
      simp only at hobs
      subst hobs
      simp only [hk, hps] at h
      cases r with
      | found h' => simp at h; rw [← h]
      | declined => simp at h; rw [← h]
      | raised => simp at h; rw [← h]

theorem runProbes_raised_reset (env : Env) (opts : Options) :
    ∀ (names : List String) (st : StreamSt), st.seekable = true → st.seekRaises = false →
      ∀ (i : Nat) (c c' : ProbeCall),
        (runProbes env opts names (.stream st)).2.get? i = some c →
        (runProbes env opts names (.stream st)).2.get? (i + 1) = some c' →
        c.result = .raised → c'.pos = some 0 := by
  intro names
  induction names with
  | nil => intro st _ _ i c c' hc _ _; simp [runProbes] at hc
  | cons name rest ih =>
    intro st hs hr i c c' hc hc' hraised
    simp only [runProbes] at hc hc'
    cases hk : knownBackend env name with
    | none =>
      simp only [hk] at hc hc'
      exact ih st hs hr i c c' hc hc' hraised
    | some b =>
      rcases hps : probeStep opts b (.stream st) with ⟨r, src', obs⟩
      obtain ⟨hobs, pos', hsrc', hreset⟩ := probeStep_stream_spec opts b st
      rw [hps] at hobs hsrc' hreset
      simp only at hobs hsrc' hreset
      subst hobs
      subst hsrc'
      simp only [hk, hps] at hc hc'
      cases r with
      | found h' =>
        cases i with
        | zero => simp at hc'
        | succ j => simp at hc
      | declined =>
        cases i with
        | zero =>
          simp at hc
          rw [← hc] at hraised
          cases hraised
        | succ j =>
          simp only [List.get?_cons_succ] at hc hc'
          exact ih ⟨pos', st.seekable, st.seekRaises⟩ hs hr j c c' hc hc' hraised
      | raised =>
        cases i with
        | zero =>
          simp only [List.get?_cons_succ, List.get?_cons_zero] at hc hc'
          have hpos' : pos' = 0 := hreset rfl hs hr
          subst hpos'
          rw [List.get?_zero] at hc'
          simpa using runProbes_head_pos env opts rest ⟨0, st.seekable, st.seekRaises⟩ c' hc'
        | succ j =>
          simp only [List.get?_cons_succ] at hc hc'
          exact ih ⟨pos', st.seekable, st.seekRaises⟩ hs hr j c c' hc hc' hraised

theorem runProbes_opened_last (env : Env) (opts : Options) :
    ∀ (names : List String) (src : FSource) (h : Nat),
      (runProbes env opts names src).1 = .opened h →
      ∃ c, (runProbes env opts names src).2.getLast? = some c ∧ c.result = .found h := by
  intro names
  induction names with
  | nil => intro src h hres; simp [runProbes] at hres
  | cons name rest ih =>
    intro src h hres
    simp only [runProbes] at hres ⊢
    cases hk : knownBackend env name with
    | none =>
      simp only [hk] at hres ⊢
      exact ih src h hres
    | some b =>
      rcases hps : probeStep opts b src with ⟨r, src', obs⟩
      simp only [hk, hps] at hres ⊢
      cases r with
      | found h' =>
        simp only at hres
        cases hres
        exact ⟨⟨name, opts, obs, .found h⟩, by simp, rfl⟩
      | declined =>
        simp only at hres
        obtain ⟨c, hlast, hcres⟩ := ih src' h hres
        refine ⟨c, ?_, hcres⟩
        show (ProbeCall.mk name opts obs .declined ::
          (runProbes env opts rest src').2).getLast? = some c
        rcases hnil : (runProbes env opts rest src').2 with _ | ⟨a, l⟩
        · rw [hnil] at hlast; simp at hlast
        · rw [hnil] at hlast
          rw [List.getLast?_cons_cons]
          exact hlast
      | raised =>
        simp only at hres
        obtain ⟨c, hlast, hcres⟩ := ih src' h hres
        refine ⟨c, ?_, hcres⟩
        show (ProbeCall.mk name opts obs .raised ::
          (runProbes env opts rest src').2).getLast? = some c
        rcases hnil : (runProbes env opts rest src').2 with _ | ⟨a, l⟩
        · rw [hnil] at hlast; simp at hlast
        · rw [hnil] at hlast
          rw [List.getLast?_cons_cons]
          exact hlast

theorem runProbes_known (env : Env) (opts : Options) :
    ∀ (names : List String) (src : FSource) (c : ProbeCall),
      c ∈ (runProbes env opts names src).2 → isKnown env c.name = true := by
  intro names
  induction names with
  | nil => intro src c h; simp [runProbes] at h
  | cons name rest ih =>
    intro src c h
    simp only [runProbes] at h
    cases hk : knownBackend env name with
    | none =>
      simp only [hk] at h
      exact ih src c h
    | some b =>
      rcases hps : probeStep opts b src with ⟨r, src', obs⟩
      simp only [hk, hps] at h
      cases r with
      | found h' =>
        simp at h
        subst h
        simp [isKnown, hk]
      | declined =>
        simp only [List.mem_cons] at h
        rcases h with rfl | h
        · simp [isKnown, hk]
        · exact ih src' c h
      | raised =>
        simp only [List.mem_cons] at h
        rcases h with rfl | h
        · simp [isKnown, hk]
        · exact ih src' c h

theorem runTrials_tried_congr (env : Env) (opts : Options) :
    ∀ (names t1 t2 : List String), (∀ m, m ∈ t1 ↔ m ∈ t2) →
      ∀ src, runTrials env opts names t1 src = runTrials env opts names t2 src := by
  intro names
  induction names with
  | nil => intro t1 t2 _ src; simp [runTrials]
  | cons n0 rest ih =>
    intro t1 t2 hrel src
    simp only [runTrials]
    by_cases hmem : normalizeBackendName env.tarCompressionBackends n0 ∈ t1
    · have hmem2 : normalizeBackendName env.tarCompressionBackends n0 ∈ t2 :=
        (hrel _).1 hmem
      simp only [hmem, hmem2, if_true]
      exact ih t1 t2 hrel src
    · have hmem2 : normalizeBackendName env.tarCompressionBackends n0 ∉ t2 :=
        fun h => hmem ((hrel _).2 h)
      simp only [hmem, hmem2, if_false]
      have hrel' : ∀ m, m ∈ normalizeBackendName env.tarCompressionBackends n0 :: t1 ↔
          m ∈ normalizeBackendName env.tarCompressionBackends n0 :: t2 := by
        intro m
        simp only [List.mem_cons]
        exact or_congr Iff.rfl (hrel m)
      cases hk : knownBackend env (normalizeBackendName env.tarCompressionBackends n0) with
      | none => exact ih _ _ hrel' src
      | some b =>
        rcases hps : probeStep opts b src with ⟨r, src', obs⟩
        cases r with
        | found h' => simp only [hps]
        | declined => simp only [hps, ih _ _ hrel' src']
        | raised => simp only [hps, ih _ _ hrel' src']

theorem runTrials_unknown_tried (env : Env) (opts : Options) (z : String)
    (hz : knownBackend env z = none) :
    ∀ (names tried : List String) (src : FSource),
      runTrials env opts names (z :: tried) src = runTrials env opts names tried src := by
  intro names
  induction names with
  | nil => intro tried src; simp [runTrials]
  | cons n0 rest ih =>
    intro tried src
    simp only [runTrials]
    by_cases heqz : normalizeBackendName env.tarCompressionBackends n0 = z
    · rw [heqz]
      simp only [List.mem_cons, true_or, if_true, eq_self_iff_true]
      by_cases hmem : z ∈ tried
      · simp only [hmem, if_true]
        exact ih tried src
      · simp only [hmem, if_false, hz]
    · by_cases hmem : normalizeBackendName env.tarCompressionBackends n0 ∈ tried
      · have : normalizeBackendName env.tarCompressionBackends n0 ∈ z :: tried :=
          List.mem_cons_of_mem _ hmem
        simp only [this, hmem, if_true]
        exact ih tried src
      · have hnmem : normalizeBackendName env.tarCompressionBackends n0 ∉ z :: tried := by
          simp only [List.mem_cons]
          rintro (h | h)
          · exact heqz h
          · exact hmem h
        simp only [hnmem, hmem, if_false]
        cases hk : knownBackend env (normalizeBackendName env.tarCompressionBackends n0) with
        | none =>
          have hswap := runTrials_tried_congr env opts rest
            (normalizeBackendName env.tarCompressionBackends n0 :: z :: tried)
            (z :: normalizeBackendName env.tarCompressionBackends n0 :: tried)
            (by intro m; simp only [List.mem_cons]; tauto) src
          rw [hswap, ih]
        | some b =>
          rcases hps : probeStep opts b src with ⟨r, src', obs⟩
          cases r with
          | found h' => simp only [hps]
          | declined =>
            have hswap := runTrials_tried_congr env opts rest
              (normalizeBackendName env.tarCompressionBackends n0 :: z :: tried)
              (z :: normalizeBackendName env.tarCompressionBackends n0 :: tried)
              (by intro m; simp only [List.mem_cons]; tauto) src'
            simp only [hps, hswap, ih]
          | raised =>
            have hswap := runTrials_tried_congr env opts rest
              (normalizeBackendName env.tarCompressionBackends n0 :: z :: tried)
              (z :: normalizeBackendName env.tarCompressionBackends n0 :: tried)
              (by intro m; simp only [List.mem_cons]; tauto) src'
            simp only [hps, hswap, ih]

theorem runTrials_drop_unknown (env : Env) (opts : Options) (z : String)
    (hz : knownBackend env z = none) (hz2 : z ∉ env.tarCompressionBackends) :
    ∀ (p1 p2 tried : List String) (src : FSource),
      runTrials env opts (p1 ++ z :: p2) tried src =
        runTrials env opts (p1 ++ p2) tried src := by
  intro p1
  induction p1 with
  | nil =>
    intro p2 tried src
    simp only [List.nil_append, runTrials]
    have hnorm : normalizeBackendName env.tarCompressionBackends z = z := by
      simp [normalizeBackendName, hz2]
    rw [hnorm]
    by_cases hmem : z ∈ tried
    · simp only [hmem, if_true]
    · simp only [hmem, if_false, hz]
      exact runTrials_unknown_tried env opts z hz p2 tried src
  | cons n0 rest ih =>
    intro p2 tried src
    simp only [List.cons_append, runTrials]
    by_cases hmem : normalizeBackendName env.tarCompressionBackends n0 ∈ tried
    · simp only [hmem, if_true]
      exact ih p2 tried src
    · simp only [hmem, if_false]
      cases hk : knownBackend env (normalizeBackendName env.tarCompressionBackends n0) with
      | none => exact ih p2 _ src
      | some b =>
        rcases hps : probeStep opts b src with ⟨r, src', obs⟩
        cases r with
        | found h' => simp only [hps]
        | declined => simp only [hps, List.append_eq, ih]
        | raised => simp only [hps, List.append_eq, ih]

/-! ## List facts for the URL-path normalization -/


theorem dropWhile_getLast_of_ne_nil {p : Char → Bool} :
    ∀ l : List Char, l.dropWhile p ≠ [] → (l.dropWhile p).getLast? = l.getLast? := by
  intro l
  induction l with
  | nil => intro h; simp [List.dropWhile] at h
  | cons a l' ih =>
    intro h
    by_cases hp : p a
    · rw [List.dropWhile_cons_of_pos hp] at h ⊢
      rw [ih h]
      have hl' : l' ≠ [] := by
        intro hnil
        rw [hnil] at h
        simp [List.dropWhile] at h
      rcases l' with _ | ⟨b, l2⟩
      · exact absurd rfl hl'
      · rw [List.getLast?_cons_cons]
    · rw [List.dropWhile_cons_of_neg hp]

theorem head_dropWhile_not {p : Char → Bool} :
    ∀ (l : List Char) (c : Char), (l.dropWhile p).head? = some c → p c = false := by
  intro l
  induction l with
  | nil => intro c h; simp [List.dropWhile] at h
  | cons a l' ih =>
    intro c h
    by_cases hp : p a
    · rw [List.dropWhile_cons_of_pos hp] at h
      exact ih c h
    · rw [List.dropWhile_cons_of_neg hp] at h
      simp at h
      rw [← h]
      exact Bool.of_not_eq_true hp

theorem dropboxNormalize_allSlash (rest : String) (h : rest.data.all (· == '/')) :
    dropboxNormalize rest = "" := by
  have hp : (if rest.data ≠ [] && !headIsSlash rest then "/" ++ rest else rest) = rest := by
    cases hd : rest.data with
    | nil => simp [hd]
    | cons c cs =>
      have hc : c == '/' := by
        have := List.all_eq_true.1 h c
        simp [hd] at this ⊢
        exact this
      have : headIsSlash rest = true := by
        simp [headIsSlash, hd]
        simpa using hc
      simp [this]
  have hdrop : rest.data.reverse.dropWhile (· == '/') = [] := by
    rw [List.dropWhile_eq_nil_iff]
    intro x hx
    exact List.all_eq_true.1 h x (List.mem_reverse.1 hx)
  show pyRstripSlash (if rest.data ≠ [] && !headIsSlash rest then "/" ++ rest else rest) = ""
  rw [hp]
  show (⟨(rest.data.reverse.dropWhile (· == '/')).reverse⟩ : String) = ""
  rw [hdrop]
  rfl

theorem dropboxNormalize_nonSlash (rest : String) (h : rest.data.any (· != '/')) :
    headIsSlash (dropboxNormalize rest) = true ∧
      lastIsSlash (dropboxNormalize rest) = false := by
  obtain ⟨x, hxmem, hxne⟩ := List.any_eq_true.1 h
  have hne : rest.data ≠ [] := by
    intro hnil
    rw [hnil] at hxmem
    simp at hxmem
  set p : String := if rest.data ≠ [] && !headIsSlash rest then "/" ++ rest else rest with hpdef
  have hphead : p.data.head? = some '/' := by
    rw [hpdef]
    cases hd : rest.data with
    | nil => exact absurd hd hne
    | cons c cs =>
      by_cases hc : c = '/'
      · have hhs : headIsSlash rest = true := by simp [headIsSlash, hd, hc]
        simp [hhs, hd, hc]
      · have hhs : headIsSlash rest = false := by
          simp [headIsSlash, hd]
          exact hc
        have hcond2 : (decide (c :: cs ≠ []) && !headIsSlash rest) = true := by
          simp [hhs]
        rw [if_pos hcond2]
        rfl
  have hpx : x ∈ p.data := by
    rw [hpdef]
    by_cases hcond : (rest.data ≠ [] && !headIsSlash rest) = true
    · simp only [hcond, if_true, String.data_append]
      exact List.mem_append_right _ hxmem
    · simp only [Bool.not_eq_true] at hcond
      simp only [hcond, Bool.false_eq_true, if_false]
      exact hxmem
  have hq : p.data.reverse.dropWhile (· == '/') ≠ [] := by
    rw [Ne, List.dropWhile_eq_nil_iff]
    intro hall
    have := hall x (List.mem_reverse.2 hpx)
    simp at this
    rw [this] at hxne
    simp at hxne
  constructor
  · show ((pyRstripSlash p).data.head? == some '/') = true
    unfold pyRstripSlash
    simp only [List.head?_reverse]
    rw [dropWhile_getLast_of_ne_nil _ hq, List.getLast?_reverse]
    rw [hphead]
    rfl
  · show ((pyRstripSlash p).data.getLast? == some '/') = false
    apply Bool.eq_false_iff.mpr
    intro hcontra
    unfold pyRstripSlash at hcontra
    simp only [List.getLast?_reverse] at hcontra
    rcases hhd : (p.data.reverse.dropWhile (· == '/')).head? with _ | c
    · rcases hq' : p.data.reverse.dropWhile (· == '/') with _ | ⟨a, l⟩
      · exact hq hq'
      · rw [hq'] at hhd; simp at hhd
    · have := head_dropWhile_not _ c hhd
      rw [hhd] at hcontra
      simp at hcontra
      rw [hcontra] at this
      simp at this

theorem splitOnce_file (rest : List Char) :
    splitOnce schemeSep ('f' :: 'i' :: 'l' :: 'e' :: ':' :: '/' :: '/' :: rest) =
      some (['f', 'i', 'l', 'e'], rest) := by
  simp [splitOnce, startsWithSeg, schemeSep]

theorem splitScheme_file (rest : String) :
    splitScheme ("file://" ++ rest) = some ("file", rest) := by
  unfold splitScheme
  have hdata : ("file://" ++ rest).data =
      'f' :: 'i' :: 'l' :: 'e' :: ':' :: '/' :: '/' :: rest.data := by
    simp [String.data_append]
  rw [hdata, splitOnce_file]

theorem splitOnce_dropbox (rest : List Char) :
    splitOnce schemeSep
      ('d' :: 'r' :: 'o' :: 'p' :: 'b' :: 'o' :: 'x' :: ':' :: '/' :: '/' :: rest) =
      some (['d', 'r', 'o', 'p', 'b', 'o', 'x'], rest) := by
  simp [splitOnce, startsWithSeg, schemeSep]

theorem splitScheme_dropbox (rest : String) :
    splitScheme ("dropbox://" ++ rest) = some ("dropbox", rest) := by
  unfold splitScheme
  have hdata : ("dropbox://" ++ rest).data =
      'd' :: 'r' :: 'o' :: 'p' :: 'b' :: 'o' :: 'x' :: ':' :: '/' :: '/' :: rest.data := by
    simp [String.data_append]
  rw [hdata, splitOnce_dropbox]

/-! ## Bridge lemmas from the entry points down to the staged loop -/

theorem isFound_false_iff (r : ProbeRes) : isFound r = false ↔ ∀ h, r ≠ .found h := by
  cases r <;> simp [isFound]

theorem openAfterURL_plain (env : Env) (p : String) (opts : Options)
    (hex : env.pathExists p = true) (hdir : env.isDir p = false)
    (hsplit : env.splitFile p = none) :
    openAfterURL env (.str p) opts =
      runLoop env opts (autoPrioritizedFor env p) "" (.str p) := by
  simp [openAfterURL, hex, hdir, hsplit]

theorem openAfterURL_split (env : Env) (p : String) (opts : Options) (files : List String)
    (hex : env.pathExists p = true) (hdir : env.isDir p = false)
    (hsplit : env.splitFile p = some files) :
    openAfterURL env (.str p) opts =
      runLoop env
        (if optTruthy (getOpt opts "indexFilePath") then opts
         else setOpt opts "indexFilePath" (.vstr (files.headD "" ++ ".index.sqlite")))
        [] (pyStripLastExt (pyBasename (files.headD "")))
        (.stream ⟨0, true, false⟩) := by
  simp [openAfterURL, hex, hdir, hsplit]

theorem openAfterURL_stream (env : Env) (st : StreamSt) (opts : Options) :
    openAfterURL env (.stream st) opts = runLoop env opts [] "" (.stream st) := rfl

theorem runLoop_eq_probes (env : Env) (opts : Options) (auto : List String)
    (joined : String) (src : FSource) :
    runLoop env opts auto joined src =
      (match (runProbes env opts (plannedNames env []
          (getPrioritized opts ++ auto ++ env.backends.map (·.1))) src).1 with
       | .opened h =>
         (.mounted (.probed h),
          (runProbes env opts (plannedNames env []
            (getPrioritized opts ++ auto ++ env.backends.map (·.1))) src).2)
       | .exhausted src' =>
         if joined ≠ "" ∧ ¬ isStr src' then
           (.mounted (.singleFile joined),
            (runProbes env opts (plannedNames env []
              (getPrioritized opts ++ auto ++ env.backends.map (·.1))) src).2)
         else
           (.failed (.unrecognizedFormat (describeSource src')),
            (runProbes env opts (plannedNames env []
              (getPrioritized opts ++ auto ++ env.backends.map (·.1))) src).2)) := by
  unfold runLoop
  simp only [runTrials_eq_runProbes]

theorem get?_isSome_iff {α : Type} (l : List α) (n : Nat) :
    (l.get? n).isSome = true ↔ n < l.length := by
  rw [List.get?_eq_getElem?, Option.isSome_iff_exists]
  constructor
  · rintro ⟨a, ha⟩
    exact (List.getElem?_eq_some.1 ha).1
  · intro h
    exact ⟨l[n], List.getElem?_eq_getElem h⟩

theorem get?_succ_none_getLast {α : Type} (l : List α) (i : Nat) (c : α)
    (h1 : l.get? i = some c) (h2 : l.get? (i + 1) = none) : l.getLast? = some c := by
  have hi : i < l.length := by
    have : (l.get? i).isSome = true := by rw [h1]; rfl
    exact (get?_isSome_iff l i).1 this
  have hle : l.length ≤ i + 1 := by
    by_contra hlt
    push_neg at hlt
    have : (l.get? (i + 1)).isSome = true := (get?_isSome_iff l (i + 1)).2 hlt
    rw [h2] at this
    cases this
  have hlen : l.length = i + 1 := Nat.le_antisymm hle hi
  rw [List.getLast?_eq_getElem?, hlen, ← List.get?_eq_getElem?]
  simpa using h1

theorem runLoop_trace (env : Env) (opts : Options) (auto : List String)
    (joined : String) (src : FSource) :
    (runLoop env opts auto joined src).2 =
      (runProbes env opts (plannedNames env []
        (getPrioritized opts ++ auto ++ env.backends.map (·.1))) src).2 := by
  rw [runLoop_eq_probes]
  rcases h1 : (runProbes env opts (plannedNames env []
      (getPrioritized opts ++ auto ++ env.backends.map (·.1))) src).1 with h | src'
  · simp only [h1]
  · simp only [h1]
    split <;> rfl

theorem runLoop_raised_continues (env : Env) (opts : Options) (auto : List String)
    (joined : String) (src : FSource) :
    ∀ (i : Nat) (c : ProbeCall), (runLoop env opts auto joined src).2.get? i = some c →
      c.result = .raised →
      ((runLoop env opts auto joined src).2.get? (i + 1)).isSome = true ∨
        isExhaustionOutcome (runLoop env opts auto joined src).1 = true := by
  intro i c hc hraised
  rw [runLoop_eq_probes] at hc ⊢
  rcases h1 : (runProbes env opts (plannedNames env []
      (getPrioritized opts ++ auto ++ env.backends.map (·.1))) src).1 with h | src'
  · left
    simp only [h1] at hc ⊢
    rcases h2 : (runProbes env opts (plannedNames env []
        (getPrioritized opts ++ auto ++ env.backends.map (·.1))) src).2.get? (i + 1) with _ | c'
    · exfalso
      obtain ⟨cl, hlast, hclres⟩ := runProbes_opened_last env opts _ src h h1
      have := get?_succ_none_getLast _ i c hc h2
      rw [this] at hlast
      cases hlast
      rw [hclres] at hraised
      cases hraised
    · rfl
  · right
    simp only [h1]
    split
    · rfl
    · rfl

theorem getOpt_setOpt (o : Options) (k : String) (v : OptValue) :
    getOpt (setOpt o k v) k = some v := by
  unfold setOpt
  by_cases hp : (o.find? (fun kv => kv.1 == k)).isSome = true
  · rw [if_pos hp]
    induction o with
    | nil => simp at hp
    | cons a o2 ih =>
      rw [List.map_cons]
      by_cases hk : (a.1 == k) = true
      · simp [getOpt, List.find?_cons, hk]
      · have hp2 : (o2.find? (fun kv => kv.1 == k)).isSome = true := by
          rw [List.find?_cons] at hp
          simpa [hk] using hp
        rw [if_neg hk]
        have hrec := ih hp2
        unfold getOpt at hrec ⊢
        rw [List.find?_cons]
        simpa [hk] using hrec
  · rw [if_neg hp]
    have hnone : o.find? (fun kv => kv.1 == k) = none := by
      rcases hfind : o.find? (fun kv => kv.1 == k) with _ | a
      · exact hfind
      · rw [hfind] at hp
        simp at hp
    unfold getOpt
    rw [List.find?_append, hnone]
    simp [List.find?_cons]

theorem getOpt_delOpt_self (o : Options) (k : String) :
    getOpt (delOpt o k) k = none := by
  unfold getOpt delOpt
  rcases hfind : (o.filter (fun kv => kv.1 != k)).find? (fun kv => kv.1 == k) with _ | a
  · rw [hfind]
  · exfalso
    have hpa := List.find?_some hfind
    have hmem := List.mem_filter.1 (List.mem_of_find?_eq_some hfind)
    simp only at hpa
    have : a.1 = k := by simpa using hpa
    rw [this] at hmem
    simp at hmem

theorem getOpt_delOpt_other (o : Options) (k k2 : String) (h : k2 ≠ k) :
    getOpt (delOpt o k) k2 = getOpt o k2 := by
  induction o with
  | nil => rfl
  | cons a o2 ih =>
    unfold delOpt at ih ⊢
    unfold getOpt at ih ⊢
    rw [List.filter_cons]
    by_cases hak : (a.1 != k) = true
    · rw [if_pos hak]
      by_cases hak2 : (a.1 == k2) = true
      · rw [List.find?_cons, List.find?_cons, hak2]
      · rw [List.find?_cons, List.find?_cons]
        simp only [hak2, cond_false]
        simpa using ih
    · rw [if_neg hak]
      have hak' : a.1 = k := by
        simpa using hak
      have hak2 : (a.1 == k2) = false := by
        rw [hak']
        exact beq_eq_false_iff_ne.mpr (fun hkk => h hkk.symm)
      have hstep : List.find? (fun kv => kv.1 == k2) (a :: o2) =
          List.find? (fun kv => kv.1 == k2) o2 := by
        rw [List.find?_cons, hak2]
      rw [hstep]
      exact ih

/-! ## The claims -/

/-- C6: for a local path argument (no URL scheme), a nonexistent path raises
the error naming the missing path with no probe invoked, and an existing
directory returns a directory-backed mount source (realpath of the argument,
with `.` kept as `.`), again with no backend probe invoked. -/
theorem c6_path_checks (env : Env) (p : String) (opts : Options)
    (hns : containsScheme p = false) :
    (env.pathExists p = false →
      openMountSource env (.str p) opts = (.failed (.notFound p), [])) ∧
    (env.pathExists p = true → env.isDir p = true →
      openMountSource env (.str p) opts =
        (.mounted (.folder (if p = "." then "." else env.realpath p)), [])) := by
  constructor
  · intro hex
    simp [openMountSource, hns, openAfterURL, hex]
  · intro hex hdir
    simp [openMountSource, hns, openAfterURL, hex, hdir]

theorem c6_path_checks_witness :
    openMountSource envS (.str "/missing") [] = (.failed (.notFound "/missing"), []) ∧
    openMountSource envS (.str "/dir") [] = (.mounted (.folder "/dir"), []) := by
  constructor
  · exact (c6_path_checks envS "/missing" [] (by decide)).1 (by decide)
  · rw [(c6_path_checks envS "/dir" [] (by decide)).2 (by decide) (by decide)]
    decide

/-- C7: a URI with the `file` scheme is rewritten to the plain local path
after the prefix; no transport adapter or network probe is invoked (the
result is the `localPath` hand-off, reached before every adapter branch). -/
theorem c7_file_scheme (env : URLEnv) (rest : String) :
    tryOpenURL env ("file://" ++ rest) = .localPath rest := by
  unfold tryOpenURL
  simp only [splitScheme_file]
  rw [if_neg (by decide : ¬("file" : String) = "")]
  simp

theorem runLoop_stream_joined_not_unrecognized (env : Env) (opts : Options)
    (auto : List String) (joined : String) (hjoin : joined ≠ "") (st0 : StreamSt) :
    ∀ s, (runLoop env opts auto joined (.stream st0)).1 ≠
      .failed (.unrecognizedFormat s) := by
  intro s hcontra
  rw [runLoop_eq_probes] at hcontra
  rcases h1 : (runProbes env opts (plannedNames env []
      (getPrioritized opts ++ auto ++ env.backends.map (·.1))) (.stream st0)).1 with h | src'
  · simp only [h1] at hcontra
    cases hcontra
  · rcases runProbes_stream_src env opts (plannedNames env []
        (getPrioritized opts ++ auto ++ env.backends.map (·.1))) st0 with ⟨h2, hop⟩ | ⟨pos2, hex2⟩
    · rw [h1] at hop
      cases hop
    · rw [h1] at hex2
      injection hex2 with hsrc
      simp only [h1, hsrc] at hcontra
      rw [if_pos ⟨hjoin, by simp [isStr]⟩] at hcontra
      cases hcontra

theorem runLoop_nojoin_iff (env : Env) (opts : Options) (auto : List String)
    (src : FSource) :
    ((runLoop env opts auto "" src).1 =
        .failed (.unrecognizedFormat (describeSource src)) ↔
      ∀ c ∈ (runLoop env opts auto "" src).2, isFound c.result = false) := by
  rw [runLoop_eq_probes]
  rcases h1 : (runProbes env opts (plannedNames env []
      (getPrioritized opts ++ auto ++ env.backends.map (·.1))) src).1 with h | src'
  · simp only [h1]
    constructor
    · intro hx
      cases hx
    · intro hall
      exfalso
      obtain ⟨cl, hlast, hres⟩ := runProbes_opened_last env opts _ src h h1
      have hmem := List.mem_of_mem_getLast? hlast
      have := hall cl hmem
      rw [hres] at this
      simp [isFound] at this
  · have hdesc : describeSource src' = describeSource src := by
      cases src with
      | str p =>
        rcases runProbes_str_src env opts (plannedNames env []
            (getPrioritized opts ++ auto ++ env.backends.map (·.1))) p with ⟨h2, hop⟩ | hex2
        · rw [h1] at hop; cases hop
        · rw [h1] at hex2
          injection hex2 with hsrc
          rw [hsrc]
      | stream st =>
        rcases runProbes_stream_src env opts (plannedNames env []
            (getPrioritized opts ++ auto ++ env.backends.map (·.1))) st with ⟨h2, hop⟩ | ⟨pos2, hex2⟩
        · rw [h1] at hop; cases hop
        · rw [h1] at hex2
          injection hex2 with hsrc
          rw [hsrc]
          rfl
    simp only [h1]
    rw [if_neg (by simp)]
    constructor
    · intro _ c hc
      exact (isFound_false_iff _).2
        ((runProbes_exhausted_iff env opts _ _).1 ⟨src', h1⟩ c hc)
    · intro _
      rw [hdesc]

/-- C3: with an existing non-directory local file, the unrecognized-format
error naming the source is raised exactly when every probe declines or
raises and no split join was prepared; with a split join prepared (and a
non-empty reconstructed base name) this error is never raised; for a stream
source the error (naming the stream) is likewise raised exactly when every
probe fails. -/
theorem c3_unrecognized (env : Env) (p : String) (opts : Options) (st : StreamSt)
    (hns : containsScheme p = false)
    (hex : env.pathExists p = true) (hdir : env.isDir p = false) :
    (env.splitFile p = none →
      ((openMountSource env (.str p) opts).1 = .failed (.unrecognizedFormat p) ↔
        ∀ c ∈ (openMountSource env (.str p) opts).2, isFound c.result = false)) ∧
    (∀ files, env.splitFile p = some files →
      pyStripLastExt (pyBasename (files.headD "")) ≠ "" →
      ∀ s, (openMountSource env (.str p) opts).1 ≠ .failed (.unrecognizedFormat s)) ∧
    ((openMountSource env (.stream st) opts).1 =
        .failed (.unrecognizedFormat "<stream>") ↔
      ∀ c ∈ (openMountSource env (.stream st) opts).2, isFound c.result = false) := by
  refine ⟨?_, ?_, ?_⟩
  · intro hsplit
    have hred : openMountSource env (.str p) opts =
        runLoop env opts (autoPrioritizedFor env p) "" (.str p) := by
      simp only [openMountSource, hns, Bool.false_eq_true, if_false]
      exact openAfterURL_plain env p opts hex hdir hsplit
    rw [hred]
    exact runLoop_nojoin_iff env opts (autoPrioritizedFor env p) (.str p)
  · intro files hsplit hjoin s
    have hred : openMountSource env (.str p) opts =
        runLoop env
          (if optTruthy (getOpt opts "indexFilePath") then opts
           else setOpt opts "indexFilePath" (.vstr (files.headD "" ++ ".index.sqlite")))
          [] (pyStripLastExt (pyBasename (files.headD "")))
          (.stream ⟨0, true, false⟩) := by
      simp only [openMountSource, hns, Bool.false_eq_true, if_false]
      exact openAfterURL_split env p opts files hex hdir hsplit
    rw [hred]
    exact runLoop_stream_joined_not_unrecognized env _ [] _ hjoin ⟨0, true, false⟩ s
  · have hred : openMountSource env (.stream st) opts =
        runLoop env opts [] "" (.stream st) := rfl
    rw [hred]
    exact runLoop_nojoin_iff env opts [] (.stream st)

theorem c3_unrecognized_witness :
    ((openMountSource envA (.str "/a/x.tar") []).1 =
        .failed (.unrecognizedFormat "/a/x.tar") ↔
      ∀ c ∈ (openMountSource envA (.str "/a/x.tar") []).2, isFound c.result = false) ∧
    (openMountSource envA (.str "/a/x.tar") []).1 =
      .failed (.unrecognizedFormat "/a/x.tar") := by
  refine ⟨(c3_unrecognized envA "/a/x.tar" [] ⟨0, true, false⟩ (by decide) (by decide)
    (by decide)).1 (by decide), by decide⟩

/-- C1: on a local file path (existing, not a directory, not a split shard),
the backends probed are pairwise distinct, and when no probe succeeds they
are exactly the registered members - in order - of the candidate list built
from the caller's priority list, the extension-matched ids and the remaining
registered ids, with tar compression sub-variants normalized to "tarfile"
and duplicates removed keeping the first occurrence. -/
theorem c1_candidate_order (env : Env) (p : String) (opts : Options)
    (hns : containsScheme p = false) (hex : env.pathExists p = true)
    (hdir : env.isDir p = false) (hsplit : env.splitFile p = none) :
    ((openMountSource env (.str p) opts).2.map ProbeCall.name).Nodup ∧
    ((∀ c ∈ (openMountSource env (.str p) opts).2, isFound c.result = false) →
      (openMountSource env (.str p) opts).2.map ProbeCall.name =
        (candidateNames env opts p).filter (isKnown env)) := by
  have hred : openMountSource env (.str p) opts =
      runLoop env opts (autoPrioritizedFor env p) "" (.str p) := by
    simp only [openMountSource, hns, Bool.false_eq_true, if_false]
    exact openAfterURL_plain env p opts hex hdir hsplit
  rw [hred, runLoop_trace]
  have hplan : (plannedNames env [] (getPrioritized opts ++ autoPrioritizedFor env p ++
      env.backends.map (·.1))).Nodup := (dedupFirstAux_nodup _ _).filter _
  constructor
  · rw [runProbes_trace_take]
    exact List.Sublist.nodup (List.take_sublist _ _) (hplan.filter _)
  · intro hnf
    have hnf' : ∀ c ∈ (runProbes env opts (plannedNames env []
        (getPrioritized opts ++ autoPrioritizedFor env p ++ env.backends.map (·.1)))
        (.str p)).2, ∀ h, c.result ≠ .found h := by
      intro c hc h
      exact (isFound_false_iff _).1 (hnf c hc) h
    obtain ⟨s', hs'⟩ := (runProbes_exhausted_iff env opts _ _).2 hnf'
    rw [runProbes_exhausted_trace env opts _ _ s' hs']
    show (plannedNames env [] _).filter (isKnown env) = _
    unfold plannedNames candidateNames
    rw [List.filter_filter]
    simp [Bool.and_self]

theorem c1_candidate_order_witness :
    ((openMountSource envA (.str "/a/x.tar")
        [("prioritizedBackends", .vlist ["gzip", "nope", "zipfile"])]).2.map
        ProbeCall.name).Nodup ∧
    (openMountSource envA (.str "/a/x.tar")
        [("prioritizedBackends", .vlist ["gzip", "nope", "zipfile"])]).2.map
        ProbeCall.name =
      (candidateNames envA [("prioritizedBackends", .vlist ["gzip", "nope", "zipfile"])]
        "/a/x.tar").filter (isKnown envA) := by
  have h := c1_candidate_order envA "/a/x.tar"
    [("prioritizedBackends", .vlist ["gzip", "nope", "zipfile"])]
    (by decide) (by decide) (by decide) (by decide)
  exact ⟨h.1, h.2 (by decide)⟩

/-- C4: in the trial loop, a probe that raises never aborts the resolution:
either another probe is invoked after it, or the loop has exhausted the full
candidate list and the outcome is one of the exhaustion outcomes (the
split-join fallback or the unrecognized-format error); a probe exception is
never surfaced to the caller. -/
theorem c4_exceptions_continue (env : Env) (opts : Options) (auto : List String)
    (joined : String) (src : FSource) (i : Nat) (c : ProbeCall)
    (hc : (runLoop env opts auto joined src).2.get? i = some c)
    (hraised : c.result = .raised) :
    ((runLoop env opts auto joined src).2.get? (i + 1)).isSome = true ∨
      isExhaustionOutcome (runLoop env opts auto joined src).1 = true :=
  runLoop_raised_continues env opts auto joined src i c hc hraised

theorem c4_exceptions_continue_witness :
    (runLoop envC [] [] "" (.stream ⟨0, true, false⟩)).2.get? 0 =
      some ⟨"rarfile", [], some 0, .raised⟩ ∧
    (((runLoop envC [] [] "" (.stream ⟨0, true, false⟩)).2.get? 1).isSome = true ∨
      isExhaustionOutcome (runLoop envC [] [] "" (.stream ⟨0, true, false⟩)).1 = true) :=
  ⟨by decide,
   c4_exceptions_continue envC [] [] "" (.stream ⟨0, true, false⟩) 0
     ⟨"rarfile", [], some 0, .raised⟩ (by decide) rfl⟩

/-- C5: when the path was detected as a split shard (with a non-empty
reconstructed base name) and no probe succeeds, the resolution returns the
single-file mount source named by the reconstructed logical base name
instead of raising. -/
theorem c5_split_fallback (env : Env) (p : String) (opts : Options)
    (files : List String)
    (hns : containsScheme p = false) (hex : env.pathExists p = true)
    (hdir : env.isDir p = false) (hsplit : env.splitFile p = some files)
    (hjoin : pyStripLastExt (pyBasename (files.headD "")) ≠ "")
    (hnf : ∀ c ∈ (openMountSource env (.str p) opts).2, isFound c.result = false) :
    (openMountSource env (.str p) opts).1 =
      .mounted (.singleFile (pyStripLastExt (pyBasename (files.headD "")))) := by
  have hred : openMountSource env (.str p) opts =
      runLoop env
        (if optTruthy (getOpt opts "indexFilePath") then opts
         else setOpt opts "indexFilePath" (.vstr (files.headD "" ++ ".index.sqlite")))
        [] (pyStripLastExt (pyBasename (files.headD "")))
        (.stream ⟨0, true, false⟩) := by
    simp only [openMountSource, hns, Bool.false_eq_true, if_false]
    exact openAfterURL_split env p opts files hex hdir hsplit
  rw [hred] at hnf ⊢
  rw [runLoop_trace] at hnf
  rw [runLoop_eq_probes]
  have hnf' : ∀ c ∈ (runProbes env
      (if optTruthy (getOpt opts "indexFilePath") then opts
       else setOpt opts "indexFilePath" (.vstr (files.headD "" ++ ".index.sqlite")))
      (plannedNames env [] (getPrioritized
        (if optTruthy (getOpt opts "indexFilePath") then opts
         else setOpt opts "indexFilePath" (.vstr (files.headD "" ++ ".index.sqlite")))
        ++ [] ++ env.backends.map (·.1)))
      (.stream ⟨0, true, false⟩)).2, ∀ h, c.result ≠ .found h := by
    intro c hc h
    exact (isFound_false_iff _).1 (hnf c hc) h
  obtain ⟨s', hs'⟩ := (runProbes_exhausted_iff env _ _ _).2 hnf'
  rcases runProbes_stream_src env
      (if optTruthy (getOpt opts "indexFilePath") then opts
       else setOpt opts "indexFilePath" (.vstr (files.headD "" ++ ".index.sqlite")))
      (plannedNames env [] (getPrioritized
        (if optTruthy (getOpt opts "indexFilePath") then opts
         else setOpt opts "indexFilePath" (.vstr (files.headD "" ++ ".index.sqlite")))
        ++ [] ++ env.backends.map (·.1)))
      ⟨0, true, false⟩ with ⟨h2, hop⟩ | ⟨pos2, hex2⟩
  · rw [hs'] at hop
    cases hop
  · simp only [hex2]
    rw [if_pos ⟨hjoin, by simp [isStr]⟩]

theorem c5_split_fallback_witness :
    (openMountSource envS (.str "/d/arch.tar.001") []).1 =
      .mounted (.singleFile "arch.tar") := by
  have h := c5_split_fallback envS "/d/arch.tar.001" []
    ["/d/arch.tar.001", "/d/arch.tar.002"]
    (by decide) (by decide) (by decide) (by decide) (by decide) (by decide)
  simpa using h

/-- C2 counterexample: the first candidate fails by returning None after
reading 7 bytes of the seekable stream; no reset happens and the second
probe observes position 7 rather than the starting position 0 the first
probe observed. -/
theorem c2_counterexample :
    (openMountSource envB (.stream ⟨0, true, false⟩) []).2.map
        (fun c => (c.pos, c.result)) =
      [(some 0, .declined), (some 7, .declined)] ∧
    (some 7 : Option Nat) ≠ some 0 := ⟨by decide, by decide⟩

/-- C2 (amended): over a seekable stream whose seek(0) does not itself fail,
the trial loop resets the position to the start after a candidate raises, so
the next probe observes position 0; after a candidate merely returns None no
reset is performed (see the counterexample), so the guarantee holds for
raised probes only. -/
theorem c2_reset_after_raise (env : Env) (st : StreamSt) (opts : Options)
    (hs : st.seekable = true) (hr : st.seekRaises = false)
    (i : Nat) (c c' : ProbeCall)
    (hc : (openMountSource env (.stream st) opts).2.get? i = some c)
    (hc' : (openMountSource env (.stream st) opts).2.get? (i + 1) = some c')
    (hraised : c.result = .raised) :
    c'.pos = some 0 := by
  have hred : openMountSource env (.stream st) opts =
      runLoop env opts [] "" (.stream st) := rfl
  rw [hred, runLoop_trace] at hc hc'
  exact runProbes_raised_reset env opts _ st hs hr i c c' hc hc' hraised

theorem c2_reset_after_raise_witness :
    (openMountSource envC (.stream ⟨0, true, false⟩) []).2.get? 0 =
        some ⟨"rarfile", [], some 0, .raised⟩ ∧
      (openMountSource envC (.stream ⟨0, true, false⟩) []).2.get? 1 =
        some ⟨"tarfile", [], some 0, .declined⟩ ∧
      (ProbeCall.mk "tarfile" [] (some 0) .declined).pos = some 0 :=
  ⟨by decide, by decide,
    c2_reset_after_raise envC ⟨0, true, false⟩ [] rfl rfl 0
      ⟨"rarfile", [], some 0, .raised⟩ ⟨"tarfile", [], some 0, .declined⟩
      (by decide) (by decide) rfl⟩

/-- C8 counterexample: with the access token present, the empty root path of
a dropbox:// URI is handed to the dropbox filesystem as the empty string,
which does not start with a leading slash. -/
theorem c8_counterexample :
    tryOpenURL urlEnvFull "dropbox://" = .dropboxFS "" ∧ headIsSlash "" = false :=
  ⟨by decide, by decide⟩

/-- C8 (amended): a dropbox:// URI without an externally supplied token
fails with the explicit instruction error; with a token, a path component
containing at least one non-slash character is handed to the dropbox
filesystem with a forced leading slash and no trailing slash, while a
component that is empty or consists only of slashes is handed as the empty
string. -/
theorem c8_dropbox (env : URLEnv) (rest : String)
    (hssh : env.sshAvailable = false ∨ "dropbox" ∉ env.sshProtocols)
    (hfs : env.fsspecAvailable = true)
    (hdb : env.dropboxAvailable = true) :
    (tokenTruthy env.dropboxToken = false →
      tryOpenURL env ("dropbox://" ++ rest) = .dropboxTokenMissing) ∧
    (tokenTruthy env.dropboxToken = true →
      tryOpenURL env ("dropbox://" ++ rest) = .dropboxFS (dropboxNormalize rest) ∧
      (rest.data.any (· != '/') = true →
        headIsSlash (dropboxNormalize rest) = true ∧
        lastIsSlash (dropboxNormalize rest) = false) ∧
      (rest.data.all (· == '/') = true → dropboxNormalize rest = "")) := by
  have hcond : (env.sshAvailable && decide (("dropbox" : String) ∈ env.sshProtocols)) =
      false := by
    rcases hssh with h | h
    · simp [h]
    · simp [h]
  have hstep : tryOpenURL env ("dropbox://" ++ rest) =
      (if !tokenTruthy env.dropboxToken then .dropboxTokenMissing
       else .dropboxFS (dropboxNormalize rest)) := by
    unfold tryOpenURL
    simp +decide [splitScheme_dropbox, hcond, hfs, hdb]
  constructor
  · intro htok
    rw [hstep, if_pos (by rw [htok]; rfl)]
  · intro htok
    refine ⟨by rw [hstep, if_neg (by rw [htok]; simp)], ?_, ?_⟩
    · intro hany
      exact dropboxNormalize_nonSlash rest hany
    · intro hall
      exact dropboxNormalize_allSlash rest hall

theorem c8_dropbox_witness :
    (tokenTruthy urlEnvFull.dropboxToken = false →
      tryOpenURL urlEnvFull ("dropbox://" ++ "a/b/") = .dropboxTokenMissing) ∧
    (tokenTruthy urlEnvFull.dropboxToken = true →
      tryOpenURL urlEnvFull ("dropbox://" ++ "a/b/") =
        .dropboxFS (dropboxNormalize "a/b/") ∧
      (("a/b/" : String).data.any (· != '/') = true →
        headIsSlash (dropboxNormalize "a/b/") = true ∧
        lastIsSlash (dropboxNormalize "a/b/") = false) ∧
      (("a/b/" : String).data.all (· == '/') = true → dropboxNormalize "a/b/" = "")) :=
  c8_dropbox urlEnvFull "a/b/" (Or.inr (by decide)) (by decide) (by decide)

/-- C9: an identifier in the priority list that is not a registered backend
id (and not a tar compression sub-variant alias) is skipped: the trial runs
exactly as if the identifier were absent - so its presence never makes the
call fail - and the identifier is never probed. -/
theorem c9_unknown_skipped (env : Env) (opts : Options) (z : String)
    (hz : knownBackend env z = none) (hz2 : z ∉ env.tarCompressionBackends)
    (p1 p2 tried : List String) (src : FSource) :
    runTrials env opts (p1 ++ z :: p2) tried src =
      runTrials env opts (p1 ++ p2) tried src ∧
    z ∉ (runTrials env opts (p1 ++ z :: p2) tried src).2.map ProbeCall.name := by
  refine ⟨runTrials_drop_unknown env opts z hz hz2 p1 p2 tried src, ?_⟩
  rw [runTrials_eq_runProbes]
  intro hmem
  obtain ⟨c, hc, hname⟩ := List.mem_map.1 hmem
  have hk := runProbes_known env opts _ _ c hc
  rw [hname] at hk
  simp [isKnown, hz] at hk

theorem c9_unknown_skipped_witness :
    runTrials envA [] ([] ++ "nope" :: ["tarfile"]) [] (.str "/a/x.tar") =
      runTrials envA [] ([] ++ ["tarfile"]) [] (.str "/a/x.tar") ∧
    "nope" ∉ (runTrials envA [] ([] ++ "nope" :: ["tarfile"]) []
      (.str "/a/x.tar")).2.map ProbeCall.name :=
  c9_unknown_skipped envA [] "nope" rfl (by decide) [] ["tarfile"] [] (.str "/a/x.tar")

/-- C10: when a URI resolves to an open byte-stream and the caller did not
pass 'tarFileName', the original URI is injected under 'tarFileName' into
the options handed to every probe; and the tar backend, given a plain path
with 'tarFileName' present, hands SQLiteIndexedTar a derived copy of the
options without that key, every other key unchanged, leaving the caller's
mapping intact. -/
theorem c10_tarFileName (env : Env) (s : String) (st : StreamSt) (options : Options)
    (hscheme : containsScheme s = true)
    (hurl : env.resolveURL s = .stream st)
    (hno : getOpt options "tarFileName" = none) :
    (∀ c ∈ (openMountSource env (.str s) options).2,
        c.opts = setOpt options "tarFileName" (.vstr s) ∧
        getOpt c.opts "tarFileName" = some (.vstr s)) ∧
    (∀ (p : String) (opts : Options), (getOpt opts "tarFileName").isSome = true →
      openTarMountSource (.str p) opts = .onPath p (delOpt opts "tarFileName") ∧
      getOpt (delOpt opts "tarFileName") "tarFileName" = none ∧
      ∀ k, k ≠ "tarFileName" → getOpt (delOpt opts "tarFileName") k = getOpt opts k) := by
  constructor
  · have hred : openMountSource env (.str s) options =
        runLoop env (setOpt options "tarFileName" (.vstr s)) [] "" (.stream st) := by
      simp only [openMountSource, hscheme, if_true, hurl, hno, Option.isSome_none,
        Bool.false_eq_true, if_false, openAfterURL]
    intro c hc
    rw [hred, runLoop_trace] at hc
    have hopt := runProbes_opts env _ _ _ c hc
    refine ⟨hopt, ?_⟩
    rw [hopt]
    exact getOpt_setOpt options "tarFileName" (.vstr s)
  · intro p opts hhas
    refine ⟨?_, getOpt_delOpt_self opts "tarFileName",
      fun k hk => getOpt_delOpt_other opts "tarFileName" k hk⟩
    simp only [openTarMountSource]
    rw [if_pos hhas]

theorem c10_tarFileName_witness :
    (openMountSource envU (.str "x://y") [("printDebug", .vint 3)]).2.map
        ProbeCall.opts =
      [[("printDebug", .vint 3), ("tarFileName", .vstr "x://y")]] ∧
    openTarMountSource (.str "/a.tar")
        [("tarFileName", .vstr "t"), ("printDebug", .vint 1)] =
      .onPath "/a.tar" [("printDebug", .vint 1)] := by
  have h := c10_tarFileName envU "x://y" ⟨0, true, false⟩ [("printDebug", .vint 3)]
    (by decide) rfl (by decide)
  refine ⟨by decide, ?_⟩
  exact (h.2 "/a.tar" [("tarFileName", .vstr "t"), ("printDebug", .vint 1)]
    (by decide)).1.trans (by decide)

end Ratarmount
